import Mathlib

/-!
Verification of the numeric core of two Keras example notebooks:

* `examples/vision/ipynb/cutmix.ipynb` — CutMix data augmentation:
  the bounding-box sampler `get_box` and the `cutmix` combiner.
* `examples/generative/ipynb/wgan_gp.ipynb` — WGAN-GP:
  `WGAN.gradient_penalty`, `WGAN.train_step`, `discriminator_loss`,
  `generator_loss`.

The tensor code is embedded shallowly: images are functions on integer
pixel coordinates, batches are functions on `Fin`, random draws
(beta sample, uniform box center, normal interpolation coefficients,
latent noise) are explicit oracle parameters indexed by a counter, and
floating-point arithmetic is modelled over `ℝ`.
-/

namespace CutMix

/-- `IMG_SIZE = 32` from the cutmix notebook's hyperparameter cell. -/
def IMG_SIZE : ℤ := 32

/-- The integer clamping part of `get_box`: given the truncated cut
width/height and the uniformly drawn center `(cx, cy)`, compute
`boundaryx1 = clip(cx - cut_w // 2, 0, size)`,
`boundaryy1 = clip(cy - cut_h // 2, 0, size)`,
`bbx2 = clip(cx + cut_w // 2, 0, size)`,
`bby2 = clip(cy + cut_h // 2, 0, size)`,
then `target_h = bby2 - boundaryy1` and `target_w = bbx2 - boundaryx1`,
each bumped to 1 when it is 0.  Returns
`(boundaryx1, boundaryy1, target_h, target_w)` in the source's order. -/
def clipBox (size cutW cutH cx cy : ℤ) : ℤ × ℤ × ℤ × ℤ :=
  let boundaryx1 := max 0 (min (cx - cutW / 2) size)
  let boundaryy1 := max 0 (min (cy - cutH / 2) size)
  let bbx2 := max 0 (min (cx + cutW / 2) size)
  let bby2 := max 0 (min (cy + cutH / 2) size)
  let target_h0 := bby2 - boundaryy1
  let target_h := if target_h0 = 0 then target_h0 + 1 else target_h0
  let target_w0 := bbx2 - boundaryx1
  let target_w := if target_w0 = 0 then target_w0 + 1 else target_w0
  (boundaryx1, boundaryy1, target_h, target_w)

/-- The truncated cut length `tf.cast(IMG_SIZE * sqrt(1 - lambda), int32)`
(for a nonnegative argument the int32 cast truncates, i.e. floors). -/
noncomputable def cutLen (size : ℤ) (lam : ℝ) : ℤ :=
  Int.floor ((size : ℝ) * Real.sqrt (1 - lam))

/-- `get_box(lambda_value)` from the cutmix notebook, with the image size
and the two uniform center draws made explicit parameters:
`cut_rat = sqrt(1 - lambda)`, `cut_w = cut_h = int32(size * cut_rat)`,
then clamp around the center and force degenerate extents to 1. -/
noncomputable def get_box (size : ℤ) (lam : ℝ) (cx cy : ℤ) : ℤ × ℤ × ℤ × ℤ :=
  clipBox size (cutLen size lam) (cutLen size lam) cx cy

theorem clipBox_bounds (size cutW cutH cx cy : ℤ)
    (hW : 0 ≤ cutW) (hH : 0 ≤ cutH)
    (hx0 : 0 ≤ cx) (hx1 : cx < size) (hy0 : 0 ≤ cy) (hy1 : cy < size) :
    0 ≤ (clipBox size cutW cutH cx cy).1 ∧
    (clipBox size cutW cutH cx cy).1 + (clipBox size cutW cutH cx cy).2.2.2 ≤ size ∧
    0 ≤ (clipBox size cutW cutH cx cy).2.1 ∧
    (clipBox size cutW cutH cx cy).2.1 + (clipBox size cutW cutH cx cy).2.2.1 ≤ size ∧
    1 ≤ (clipBox size cutW cutH cx cy).2.2.2 ∧
    1 ≤ (clipBox size cutW cutH cx cy).2.2.1 := by
  simp only [clipBox]
  split_ifs <;> omega

theorem cutLen_nonneg (size : ℤ) (lam : ℝ) (hs : 0 ≤ size) :
    0 ≤ cutLen size lam := by
  have h : (0 : ℝ) ≤ (size : ℝ) * Real.sqrt (1 - lam) :=
    mul_nonneg (by exact_mod_cast hs) (Real.sqrt_nonneg _)
  exact Int.floor_nonneg.mpr h

/-- C1: for every `mixRatio ∈ [0,1]`, `imageSize > 0`, and every outcome
`(cx, cy)` of the uniform integer center draw in `[0, imageSize)`, the box
`(x, y, height, width)` returned by `get_box` satisfies
`0 ≤ x ≤ x + width ≤ imageSize`, `0 ≤ y ≤ y + height ≤ imageSize`,
`width ≥ 1` and `height ≥ 1`. -/
theorem get_box_in_bounds (size : ℤ) (lam : ℝ) (cx cy : ℤ)
    (_hl0 : 0 ≤ lam) (_hl1 : lam ≤ 1) (hs : 0 < size)
    (hx0 : 0 ≤ cx) (hx1 : cx < size) (hy0 : 0 ≤ cy) (hy1 : cy < size) :
    0 ≤ (get_box size lam cx cy).1 ∧
    (get_box size lam cx cy).1 ≤
      (get_box size lam cx cy).1 + (get_box size lam cx cy).2.2.2 ∧
    (get_box size lam cx cy).1 + (get_box size lam cx cy).2.2.2 ≤ size ∧
    0 ≤ (get_box size lam cx cy).2.1 ∧
    (get_box size lam cx cy).2.1 ≤
      (get_box size lam cx cy).2.1 + (get_box size lam cx cy).2.2.1 ∧
    (get_box size lam cx cy).2.1 + (get_box size lam cx cy).2.2.1 ≤ size ∧
    1 ≤ (get_box size lam cx cy).2.2.2 ∧
    1 ≤ (get_box size lam cx cy).2.2.1 := by
  have hc : 0 ≤ cutLen size lam := cutLen_nonneg size lam (le_of_lt hs)
  have h := clipBox_bounds size (cutLen size lam) (cutLen size lam) cx cy
    hc hc hx0 hx1 hy0 hy1
  unfold get_box
  exact ⟨h.1, by omega, h.2.1, h.2.2.1, by omega, h.2.2.2.1, h.2.2.2.2.1,
    h.2.2.2.2.2⟩

/-- Witness for C1 at `imageSize = 32`, `mixRatio = 1/2`, center `(16,16)`. -/
theorem get_box_in_bounds_witness :
    0 ≤ (get_box 32 (1/2) 16 16).1 ∧
    (get_box 32 (1/2) 16 16).1 ≤
      (get_box 32 (1/2) 16 16).1 + (get_box 32 (1/2) 16 16).2.2.2 ∧
    (get_box 32 (1/2) 16 16).1 + (get_box 32 (1/2) 16 16).2.2.2 ≤ 32 ∧
    0 ≤ (get_box 32 (1/2) 16 16).2.1 ∧
    (get_box 32 (1/2) 16 16).2.1 ≤
      (get_box 32 (1/2) 16 16).2.1 + (get_box 32 (1/2) 16 16).2.2.1 ∧
    (get_box 32 (1/2) 16 16).2.1 + (get_box 32 (1/2) 16 16).2.2.1 ≤ 32 ∧
    1 ≤ (get_box 32 (1/2) 16 16).2.2.2 ∧
    1 ≤ (get_box 32 (1/2) 16 16).2.2.1 :=
  get_box_in_bounds 32 (1/2) 16 16 (by norm_num) (by norm_num) (by decide)
    (by decide) (by decide) (by decide) (by decide)

theorem cutLen_32_half : cutLen 32 (1/2) = 22 := by
  unfold cutLen
  have h1 : (1 : ℝ) - 1/2 = 1/2 := by norm_num
  rw [h1]
  have hlo : (22 : ℝ) ≤ 32 * Real.sqrt (1/2) := by
    have h : (11/16 : ℝ) ≤ Real.sqrt (1/2) :=
      (Real.le_sqrt' (by norm_num)).mpr (by norm_num)
    nlinarith
  have hhi : 32 * Real.sqrt (1/2) < 23 := by
    have h : Real.sqrt (1/2) < 23/32 :=
      (Real.sqrt_lt' (by norm_num)).mpr (by norm_num)
    nlinarith
  have : Int.floor (32 * Real.sqrt (1/2)) = 22 := by
    apply Int.floor_eq_iff.mpr
    constructor
    · exact_mod_cast hlo
    · push_cast
      linarith
  exact_mod_cast this

/-- C8: for `imageSize = 32` and `mixRatio = 0.5` the truncated cut width
and height are both 22, and with center draw `(16, 16)` the returned box
`(boundaryx1, boundaryy1, target_h, target_w)` is `(5, 5, 22, 22)`. -/
theorem get_box_example_32_half :
    cutLen 32 (1/2) = 22 ∧ get_box 32 (1/2) 16 16 = (5, 5, 22, 22) := by
  refine ⟨cutLen_32_half, ?_⟩
  unfold get_box
  rw [cutLen_32_half]
  decide

theorem clipBox_bounds_witness :
    0 ≤ (clipBox 32 22 22 16 16).1 ∧
    (clipBox 32 22 22 16 16).1 + (clipBox 32 22 22 16 16).2.2.2 ≤ 32 ∧
    0 ≤ (clipBox 32 22 22 16 16).2.1 ∧
    (clipBox 32 22 22 16 16).2.1 + (clipBox 32 22 22 16 16).2.2.1 ≤ 32 ∧
    1 ≤ (clipBox 32 22 22 16 16).2.2.2 ∧
    1 ≤ (clipBox 32 22 22 16 16).2.2.1 :=
  clipBox_bounds 32 22 22 16 16 (by decide) (by decide) (by decide) (by decide)
    (by decide) (by decide)

/-- A dense image tensor of shape `(h, w, c)`: pixel values are read
through `px row col channel`; coordinates outside `[0,h) × [0,w) × [0,c)`
are irrelevant to well-formed uses. -/
structure Image where
  h : ℤ
  w : ℤ
  c : ℤ
  px : ℤ → ℤ → ℤ → ℝ

/-- `tf.image.crop_to_bounding_box(image, offset_height, offset_width,
target_height, target_width)`: the `(th, tw)`-shaped window of `image`
whose top-left corner sits at `(oy, ox)`. -/
def crop_to_bounding_box (img : Image) (oy ox th tw : ℤ) : Image :=
  ⟨th, tw, img.c, fun i j ch => img.px (oy + i) (ox + j) ch⟩

/-- `tf.image.pad_to_bounding_box(image, offset_height, offset_width,
target_height, target_width)`: embed `image` at offset `(oy, ox)` inside a
zero canvas of shape `(th, tw)`. -/
def pad_to_bounding_box (img : Image) (oy ox th tw : ℤ) : Image :=
  ⟨th, tw, img.c, fun i j ch =>
    if oy ≤ i ∧ i < oy + img.h ∧ ox ≤ j ∧ j < ox + img.w then
      img.px (i - oy) (j - ox) ch
    else 0⟩

/-- Pointwise tensor subtraction (shapes agree in every call site). -/
def imgSub (a b : Image) : Image :=
  ⟨a.h, a.w, a.c, fun i j ch => a.px i j ch - b.px i j ch⟩

/-- Pointwise tensor addition (shapes agree in every call site). -/
def imgAdd (a b : Image) : Image :=
  ⟨a.h, a.w, a.c, fun i j ch => a.px i j ch + b.px i j ch⟩

/-- The adjusted mixing weight computed by `cutmix` after the box is
realized: `lambda = 1 - (target_w * target_h) / (IMG_SIZE * IMG_SIZE)`. -/
noncomputable def effective_lambda (size tw th : ℤ) : ℝ :=
  1 - ((tw : ℝ) * (th : ℝ)) / ((size : ℝ) * (size : ℝ))

/-- The body of `cutmix` after `get_box` has produced the bounding box
`(boundaryx1, boundaryy1, target_h, target_w)`: crop `image2` at the box,
pad it back to full size, do the same with `image1`, subtract the
`image1` patch and add the `image2` patch, then blend the labels with the
realized-area weight `effective_lambda`. -/
noncomputable def cutmixWithBox {n : ℕ} (box : ℤ × ℤ × ℤ × ℤ)
    (image1 : Image) (label1 : Fin n → ℝ)
    (image2 : Image) (label2 : Fin n → ℝ) : Image × (Fin n → ℝ) :=
  let boundaryx1 := box.1
  let boundaryy1 := box.2.1
  let target_h := box.2.2.1
  let target_w := box.2.2.2
  let crop2 := crop_to_bounding_box image2 boundaryy1 boundaryx1 target_h target_w
  let image2Pad := pad_to_bounding_box crop2 boundaryy1 boundaryx1 IMG_SIZE IMG_SIZE
  let crop1 := crop_to_bounding_box image1 boundaryy1 boundaryx1 target_h target_w
  let img1 := pad_to_bounding_box crop1 boundaryy1 boundaryx1 IMG_SIZE IMG_SIZE
  let image1Sub := imgSub image1 img1
  let image := imgAdd image1Sub image2Pad
  let lambda_value := effective_lambda IMG_SIZE target_w target_h
  let label := fun i => lambda_value * label1 i + (1 - lambda_value) * label2 i
  (image, label)

/-- `cutmix((image1, label1), (image2, label2))` from the notebook, with
the beta draw `lam` and the two uniform center draws `(cx, cy)` passed as
explicit random outcomes. -/
noncomputable def cutmix {n : ℕ} (lam : ℝ) (cx cy : ℤ)
    (image1 : Image) (label1 : Fin n → ℝ)
    (image2 : Image) (label2 : Fin n → ℝ) : Image × (Fin n → ℝ) :=
  cutmixWithBox (get_box IMG_SIZE lam cx cy) image1 label1 image2 label2

/-- Membership of pixel coordinate `(i, j)` in a box
`(boundaryx1, boundaryy1, target_h, target_w)`. -/
def inBox (box : ℤ × ℤ × ℤ × ℤ) (i j : ℤ) : Prop :=
  box.2.1 ≤ i ∧ i < box.2.1 + box.2.2.1 ∧ box.1 ≤ j ∧ j < box.1 + box.2.2.2

instance (box : ℤ × ℤ × ℤ × ℤ) (i j : ℤ) : Decidable (inBox box i j) := by
  unfold inBox
  infer_instance

/-- C5: for equal-shape inputs and any sampled box, the image produced by
`cutmix` equals `image2` at every pixel inside the box, equals `image1`
at every pixel outside it, and has the shape of the inputs. -/
theorem cutmix_crop_and_paste {n : ℕ} (box : ℤ × ℤ × ℤ × ℤ)
    (image1 : Image) (label1 : Fin n → ℝ)
    (image2 : Image) (label2 : Fin n → ℝ)
    (hh : image1.h = image2.h) (hw : image1.w = image2.w)
    (hc : image1.c = image2.c) :
    (∀ i j ch, inBox box i j →
      ((cutmixWithBox box image1 label1 image2 label2).1).px i j ch =
        image2.px i j ch) ∧
    (∀ i j ch, ¬ inBox box i j →
      ((cutmixWithBox box image1 label1 image2 label2).1).px i j ch =
        image1.px i j ch) ∧
    ((cutmixWithBox box image1 label1 image2 label2).1).h = image1.h ∧
    ((cutmixWithBox box image1 label1 image2 label2).1).w = image1.w ∧
    ((cutmixWithBox box image1 label1 image2 label2).1).c = image1.c ∧
    image1.h = image2.h ∧ image1.w = image2.w ∧ image1.c = image2.c := by
  refine ⟨?_, ?_, rfl, rfl, rfl, hh, hw, hc⟩
  · intro i j ch hin
    obtain ⟨h1, h2, h3, h4⟩ := hin
    simp only [cutmixWithBox, imgAdd, imgSub, pad_to_bounding_box,
      crop_to_bounding_box]
    rw [if_pos ⟨h1, h2, h3, h4⟩, if_pos ⟨h1, h2, h3, h4⟩]
    have e1 : box.2.1 + (i - box.2.1) = i := by ring
    have e2 : box.1 + (j - box.1) = j := by ring
    rw [e1, e2]
    ring
  · intro i j ch hout
    rw [inBox] at hout
    simp only [cutmixWithBox, imgAdd, imgSub, pad_to_bounding_box,
      crop_to_bounding_box]
    rw [if_neg hout, if_neg hout]
    ring

/-- C7: when the sampled box covers the full image
(`x = y = 0`, `height = width = IMG_SIZE`), the `cutmix` output image
equals `image2` at every valid pixel and the output label equals
`label2` (the effective mix ratio is 0). -/
theorem cutmix_full_box {n : ℕ}
    (image1 : Image) (label1 : Fin n → ℝ)
    (image2 : Image) (label2 : Fin n → ℝ) :
    (∀ i j ch, 0 ≤ i → i < IMG_SIZE → 0 ≤ j → j < IMG_SIZE →
      ((cutmixWithBox (0, 0, IMG_SIZE, IMG_SIZE)
          image1 label1 image2 label2).1).px i j ch = image2.px i j ch) ∧
    (∀ k, (cutmixWithBox (0, 0, IMG_SIZE, IMG_SIZE)
        image1 label1 image2 label2).2 k = label2 k) ∧
    effective_lambda IMG_SIZE IMG_SIZE IMG_SIZE = 0 := by
  have hlam : effective_lambda IMG_SIZE IMG_SIZE IMG_SIZE = 0 := by
    unfold effective_lambda IMG_SIZE
    norm_num
  refine ⟨?_, ?_, hlam⟩
  · intro i j ch hi0 hi1 hj0 hj1
    simp only [cutmixWithBox, imgAdd, imgSub, pad_to_bounding_box,
      crop_to_bounding_box]
    rw [if_pos ⟨hi0, by simpa using hi1, hj0, by simpa using hj1⟩,
      if_pos ⟨hi0, by simpa using hi1, hj0, by simpa using hj1⟩]
    simp only [zero_add, sub_zero]
    ring
  · intro k
    simp only [cutmixWithBox]
    rw [hlam]
    ring

/-- C3: `cutmix` blends labels with the effective mix ratio
`1 - target_w * target_h / (IMG_SIZE * IMG_SIZE)` recomputed from the
realized box, and consequently the output label sums to 1 whenever both
input labels do. -/
theorem cutmix_label_sum {n : ℕ} (box : ℤ × ℤ × ℤ × ℤ)
    (image1 : Image) (label1 : Fin n → ℝ)
    (image2 : Image) (label2 : Fin n → ℝ) :
    (∀ k, (cutmixWithBox box image1 label1 image2 label2).2 k =
      effective_lambda IMG_SIZE box.2.2.2 box.2.2.1 * label1 k +
        (1 - effective_lambda IMG_SIZE box.2.2.2 box.2.2.1) * label2 k) ∧
    ((∑ k, label1 k) = 1 → (∑ k, label2 k) = 1 →
      (∑ k, (cutmixWithBox box image1 label1 image2 label2).2 k) = 1) := by
  constructor
  · intro k
    rfl
  · intro hs1 hs2
    simp only [cutmixWithBox]
    rw [Finset.sum_add_distrib, ← Finset.mul_sum, ← Finset.mul_sum, hs1, hs2]
    ring

/-- A concrete all-zero 32×32×3 image used to instantiate theorems. -/
def witImage : Image := ⟨32, 32, 3, fun _ _ _ => 0⟩

/-- A concrete 32×32×3 image with position-dependent pixels. -/
noncomputable def witImage2 : Image := ⟨32, 32, 3, fun i j _ => (i : ℝ) + 2 * (j : ℝ)⟩

/-- One-hot label on class 0 (of 2 classes). -/
def witLabel1 : Fin 2 → ℝ := fun k => if k = 0 then 1 else 0

/-- One-hot label on class 1 (of 2 classes). -/
def witLabel2 : Fin 2 → ℝ := fun k => if k = 1 then 1 else 0

/-- Witness for C5 at the box `(5, 5, 22, 22)`: pixel `(10,10)` (inside)
comes from `image2`, pixel `(0,0)` (outside) from `image1`. -/
theorem cutmix_crop_and_paste_witness :
    ((cutmixWithBox (5, 5, 22, 22) witImage witLabel1 witImage2 witLabel2).1).px
        10 10 0 = witImage2.px 10 10 0 ∧
    ((cutmixWithBox (5, 5, 22, 22) witImage witLabel1 witImage2 witLabel2).1).px
        0 0 0 = witImage.px 0 0 0 :=
  ⟨(cutmix_crop_and_paste (5, 5, 22, 22) witImage witLabel1 witImage2 witLabel2
      rfl rfl rfl).1 10 10 0 (by decide),
   (cutmix_crop_and_paste (5, 5, 22, 22) witImage witLabel1 witImage2 witLabel2
      rfl rfl rfl).2.1 0 0 0 (by decide)⟩

/-- Witness for C7 at pixel `(3, 4)` and label index 0. -/
theorem cutmix_full_box_witness :
    ((cutmixWithBox (0, 0, IMG_SIZE, IMG_SIZE)
        witImage witLabel1 witImage2 witLabel2).1).px 3 4 0 =
      witImage2.px 3 4 0 ∧
    (cutmixWithBox (0, 0, IMG_SIZE, IMG_SIZE)
        witImage witLabel1 witImage2 witLabel2).2 0 = witLabel2 0 :=
  ⟨(cutmix_full_box witImage witLabel1 witImage2 witLabel2).1 3 4 0
      (by decide) (by decide) (by decide) (by decide),
   (cutmix_full_box witImage witLabel1 witImage2 witLabel2).2.1 0⟩

/-- Witness for C3: with one-hot inputs the blended label sums to 1. -/
theorem cutmix_label_sum_witness :
    (∑ k, (cutmixWithBox (5, 5, 22, 22)
        witImage witLabel1 witImage2 witLabel2).2 k) = 1 :=
  (cutmix_label_sum (5, 5, 22, 22) witImage witLabel1 witImage2 witLabel2).2
    (by simp [witLabel1, Fin.sum_univ_two])
    (by simp [witLabel2, Fin.sum_univ_two])

end CutMix

namespace WGAN

/-- A batch of images of shape `[B, H, W, C]`. -/
def Img (B H W C : ℕ) : Type := Fin B → Fin H → Fin W → Fin C → ℝ

/-- `tf.reduce_mean` over a batch of scalars. -/
noncomputable def reduce_mean {B : ℕ} (v : Fin B → ℝ) : ℝ := (∑ b, v b) / B

/-- `discriminator_loss(real_img, fake_img)` from the wgan_gp notebook:
`mean(fake_img) - mean(real_img)`. -/
noncomputable def discriminator_loss {B : ℕ} (real_img fake_img : Fin B → ℝ) : ℝ :=
  reduce_mean fake_img - reduce_mean real_img

/-- `generator_loss(fake_img)` from the wgan_gp notebook:
`-mean(fake_img)`. -/
noncomputable def generator_loss {B : ℕ} (fake_img : Fin B → ℝ) : ℝ :=
  -reduce_mean fake_img

/-- The interpolation step of `gradient_penalty`: `alpha` has shape
`[batch_size, 1, 1, 1]`, i.e. one coefficient per batch element broadcast
over all spatial positions and channels; `diff = fake - real` and
`interpolated = real + alpha * diff`. -/
noncomputable def interpolate {B H W C : ℕ} (alpha : Fin B → ℝ)
    (real_images fake_images : Img B H W C) : Img B H W C :=
  fun b i j ch =>
    real_images b i j ch +
      alpha b * (fake_images b i j ch - real_images b i j ch)

/-- The per-sample gradient norm of `gradient_penalty`:
`norm = sqrt(reduce_sum(square(grads), axis=[1, 2, 3]))`, the L2 norm of
the gradient flattened over all non-batch dimensions. -/
noncomputable def gradNorm {B H W C : ℕ} (grads : Img B H W C) (b : Fin B) : ℝ :=
  Real.sqrt (∑ i, ∑ j, ∑ ch, (grads b i j ch) ^ 2)

/-- `WGAN.gradient_penalty` with the normal draw `alpha` and the
automatic-differentiation oracle `discGrad` (the tape gradient of the
discriminator's output with respect to its input) passed explicitly:
interpolate, evaluate the discriminator's input gradient there, and
return `mean((norm - 1)^2)`. -/
noncomputable def gradient_penalty {B H W C : ℕ} (alpha : Fin B → ℝ)
    (discGrad : Img B H W C → Img B H W C)
    (real_images fake_images : Img B H W C) : ℝ :=
  let interpolated := interpolate alpha real_images fake_images
  let grads := discGrad interpolated
  reduce_mean (fun b => (gradNorm grads b - 1) ^ 2)

/-- C2: `gradient_penalty` computes for each batch element the L2 norm of
the discriminator's input gradient at the interpolated image flattened
over all non-batch dimensions, returns the batch mean of `(norm - 1)^2`,
and (for a nonempty batch) vanishes exactly when every per-sample norm
is 1. -/
theorem gradient_penalty_spec {B H W C : ℕ} (alpha : Fin B → ℝ)
    (discGrad : Img B H W C → Img B H W C)
    (real_images fake_images : Img B H W C) (hB : 0 < B) :
    gradient_penalty alpha discGrad real_images fake_images =
      (∑ b, (gradNorm (discGrad (interpolate alpha real_images fake_images))
        b - 1) ^ 2) / B ∧
    (gradient_penalty alpha discGrad real_images fake_images = 0 ↔
      ∀ b, gradNorm (discGrad (interpolate alpha real_images fake_images))
        b = 1) := by
  constructor
  · rfl
  · unfold gradient_penalty reduce_mean
    have hBne : ((B : ℝ)) ≠ 0 := by
      exact_mod_cast Nat.pos_iff_ne_zero.mp hB
    rw [div_eq_zero_iff]
    constructor
    · intro h
      rcases h with h | h
      · intro b
        have hterm := (Finset.sum_eq_zero_iff_of_nonneg
          (fun b _ => sq_nonneg _)).mp h b (Finset.mem_univ b)
        have := pow_eq_zero_iff (n := 2) (by norm_num) |>.mp hterm
        linarith [sub_eq_zero.mp this]
      · exact absurd h hBne
    · intro h
      left
      apply Finset.sum_eq_zero
      intro b _
      rw [h b]
      ring

/-- A concrete zero coefficient vector for a single-element batch. -/
noncomputable def witAlpha : Fin 1 → ℝ := fun _ => 0

/-- A concrete gradient oracle returning the constant-1 gradient. -/
noncomputable def witGrad : Img 1 1 1 1 → Img 1 1 1 1 := fun _ _ _ _ _ => 1

/-- A concrete all-zero 1×1×1×1 image batch. -/
noncomputable def witZeroImg : Img 1 1 1 1 := fun _ _ _ _ => 0

/-- Witness for C2: a single-element batch whose gradient oracle returns
the constant-1 gradient, so the penalty vanishes. -/
theorem gradient_penalty_spec_witness :
    gradient_penalty witAlpha witGrad witZeroImg witZeroImg =
      (∑ b, (gradNorm (witGrad (interpolate witAlpha witZeroImg witZeroImg))
        b - 1) ^ 2) / (1 : ℕ) ∧
    (gradient_penalty witAlpha witGrad witZeroImg witZeroImg = 0 ↔
      ∀ b, gradNorm (witGrad (interpolate witAlpha witZeroImg witZeroImg))
        b = 1) :=
  gradient_penalty_spec witAlpha witGrad witZeroImg witZeroImg (by decide)

/-- C6: the interpolated batch is `real + alpha * (fake - real)` with one
coefficient per batch element (shape `[B,1,1,1]`, broadcast over `i`,
`j`, `ch`), equivalently the affine blend `(1-alpha)*real + alpha*fake`;
`alpha = 0` gives back `real` and `alpha = 1` gives `fake`, and
`gradient_penalty` evaluates the discriminator's gradient exactly at this
interpolated batch. -/
theorem interpolate_spec {B H W C : ℕ} (alpha : Fin B → ℝ)
    (real_images fake_images : Img B H W C)
    (discGrad : Img B H W C → Img B H W C) :
    (∀ b i j ch, interpolate alpha real_images fake_images b i j ch =
      real_images b i j ch +
        alpha b * (fake_images b i j ch - real_images b i j ch)) ∧
    (∀ b i j ch, interpolate alpha real_images fake_images b i j ch =
      (1 - alpha b) * real_images b i j ch + alpha b * fake_images b i j ch) ∧
    interpolate (fun _ => 0) real_images fake_images = real_images ∧
    interpolate (fun _ => 1) real_images fake_images = fake_images ∧
    gradient_penalty alpha discGrad real_images fake_images =
      reduce_mean (fun b =>
        (gradNorm (discGrad (interpolate alpha real_images fake_images))
          b - 1) ^ 2) := by
  refine ⟨fun b i j ch => rfl, fun b i j ch => ?_, ?_, ?_, rfl⟩
  · unfold interpolate
    ring
  · funext b i j ch
    unfold interpolate
    ring
  · funext b i j ch
    unfold interpolate
    ring

/-- The external collaborators of `WGAN.train_step`, bundled: the random
sources (`latentDraw` for `tf.random.normal` latent vectors, `normalDraw`
for the `[B,1,1,1]` interpolation coefficients, both indexed by a draw
counter), the two networks, the tape-gradient oracle `discGradAt` (the
gradient of `discriminator p` with respect to its input), the two
optimizer update oracles (`tape.gradient` + `apply_gradients`, abstracted
as a function of the current parameters and the loss), the two configured
loss functions, and the penalty weight `gp_weight`. -/
structure Model (B H W C : ℕ) (D G L : Type) where
  latentDraw : ℕ → L
  normalDraw : ℕ → Fin B → ℝ
  generator : G → L → Img B H W C
  discriminator : D → Img B H W C → Fin B → ℝ
  discGradAt : D → Img B H W C → Img B H W C
  dApply : D → ℝ → D
  gApply : G → ℝ → G
  dLossFn : (Fin B → ℝ) → (Fin B → ℝ) → ℝ
  gLossFn : (Fin B → ℝ) → ℝ
  gpWeight : ℝ

/-- The mutable training state threaded through a `train_step`: the two
parameter sets and the random-draw counter. -/
structure TrainState (D G : Type) where
  dParams : D
  gParams : G
  rng : ℕ

/-- `WGAN.gradient_penalty` as it runs inside `train_step`: draw `alpha`
from the normal source at the current counter, evaluate the penalty with
the current discriminator parameters, and advance only the counter. -/
noncomputable def gradient_penaltyS {B H W C : ℕ} {D G L : Type}
    (M : Model B H W C D G L) (s : TrainState D G)
    (real_images fake_images : Img B H W C) : ℝ × TrainState D G :=
  (gradient_penalty (M.normalDraw s.rng) (M.discGradAt s.dParams)
      real_images fake_images,
   ⟨s.dParams, s.gParams, s.rng + 1⟩)

/-- One iteration of the discriminator loop of `train_step`: draw fresh
latent noise, generate fake images, score fakes and reals, combine
`d_loss = d_loss_fn(real_logits, fake_logits) + gp * gp_weight`, and
update the discriminator parameters through the optimizer oracle. -/
noncomputable def dPhase {B H W C : ℕ} {D G L : Type}
    (M : Model B H W C D G L) (real_images : Img B H W C)
    (s : TrainState D G) : TrainState D G × ℝ :=
  let random_latent_vectors := M.latentDraw s.rng
  let s1 : TrainState D G := ⟨s.dParams, s.gParams, s.rng + 1⟩
  let fake_images := M.generator s.gParams random_latent_vectors
  let fake_logits := M.discriminator s.dParams fake_images
  let real_logits := M.discriminator s.dParams real_images
  let d_cost := M.dLossFn real_logits fake_logits
  let gpr := gradient_penaltyS M s1 real_images fake_images
  let d_loss := d_cost + gpr.1 * M.gpWeight
  (⟨M.dApply gpr.2.dParams d_loss, gpr.2.gParams, gpr.2.rng⟩, d_loss)

/-- The generator phase of `train_step`: draw fresh latent noise,
generate and score fake images, compute `g_loss = g_loss_fn(logits)`,
and update the generator parameters through the optimizer oracle. -/
noncomputable def gPhase {B H W C : ℕ} {D G L : Type}
    (M : Model B H W C D G L) (s : TrainState D G) : TrainState D G × ℝ :=
  let random_latent_vectors := M.latentDraw s.rng
  let s1 : TrainState D G := ⟨s.dParams, s.gParams, s.rng + 1⟩
  let generated_images := M.generator s.gParams random_latent_vectors
  let gen_img_logits := M.discriminator s.dParams generated_images
  let g_loss := M.gLossFn gen_img_logits
  (⟨s1.dParams, M.gApply s1.gParams g_loss, s1.rng⟩, g_loss)

/-- A phase marker recorded while a `train_step` runs. -/
inductive Phase where
  | dis : Phase
  | gen : Phase
deriving DecidableEq

/-- `for i in range(d_steps)` of `train_step`: iterate `dPhase`, keeping
the loop variable `d_loss` of the last executed iteration (`none` when
the loop body never ran) and the list of executed phases. -/
noncomputable def dLoop {B H W C : ℕ} {D G L : Type}
    (M : Model B H W C D G L) (real_images : Img B H W C) :
    ℕ → TrainState D G → TrainState D G × Option ℝ × List Phase
  | 0, s => (s, none, [])
  | Nat.succ k, s =>
      let p := dPhase M real_images s
      let r := dLoop M real_images k p.1
      (r.1, some (r.2.1.getD p.2), Phase.dis :: r.2.2)

/-- The argument Keras passes to `train_step`: either a bare image batch
or a tuple whose first component is the image batch. -/
inductive BatchInput (I E : Type) where
  | plain : I → BatchInput I E
  | tupled : I → E → BatchInput I E

/-- The `isinstance(real_images, tuple)` check at the top of
`train_step`: a tuple is replaced by its first component. -/
def firstComponent {I E : Type} : BatchInput I E → I
  | .plain x => x
  | .tupled x _ => x

/-- `WGAN.train_step`: unwrap the batch, run the discriminator loop
`d_steps` times, then the generator phase once, and return the final
state, the last discriminator loss, the generator loss, and the phase
trace. -/
noncomputable def train_step {B H W C : ℕ} {D G L E : Type}
    (M : Model B H W C D G L) (dSteps : ℕ)
    (inp : BatchInput (Img B H W C) E) (s : TrainState D G) :
    TrainState D G × Option ℝ × ℝ × List Phase :=
  let real_images := firstComponent inp
  let r := dLoop M real_images dSteps s
  let g := gPhase M r.1
  (g.1, r.2.1, g.2, r.2.2 ++ [Phase.gen])

theorem dLoop_params_id {B H W C : ℕ} {D G L : Type}
    (M : Model B H W C D G L) (real_images : Img B H W C)
    (hda : ∀ d l, M.dApply d l = d) :
    ∀ (n : ℕ) (t : TrainState D G),
      (dLoop M real_images n t).1.dParams = t.dParams ∧
      (dLoop M real_images n t).1.gParams = t.gParams := by
  intro n
  induction n with
  | zero => exact fun t => ⟨rfl, rfl⟩
  | succ k ih =>
      intro t
      have hstep : (dPhase M real_images t).1.dParams = t.dParams ∧
          (dPhase M real_images t).1.gParams = t.gParams := by
        constructor
        · simp only [dPhase, gradient_penaltyS]
          exact hda _ _
        · rfl
      have := ih (dPhase M real_images t).1
      simp only [dLoop]
      exact ⟨this.1.trans hstep.1, this.2.trans hstep.2⟩

/-- C4: a `train_step` with the notebook's 3 discriminator extra steps
runs exactly three discriminator phases and then one generator phase,
returns the last discriminator loss together with the generator loss,
each discriminator phase draws its own latent noise at the current
counter and minimizes `mean(fake) - mean(real) + gp * gp_weight`, each
phase advances the draw counter (so all noise draws are fresh), and the
generator phase draws fresh noise and minimizes `-mean(fake)`. -/
theorem train_step_schedule {B H W C : ℕ} {D G L E : Type}
    (M : Model B H W C D G L) (real_images : Img B H W C)
    (s : TrainState D G)
    (hd : M.dLossFn = discriminator_loss) (hg : M.gLossFn = generator_loss) :
    train_step M 3 (BatchInput.plain (E := E) real_images) s =
      (let p1 := dPhase M real_images s
       let p2 := dPhase M real_images p1.1
       let p3 := dPhase M real_images p2.1
       let pg := gPhase M p3.1
       (pg.1, some p3.2, pg.2,
        [Phase.dis, Phase.dis, Phase.dis, Phase.gen])) ∧
    (∀ t : TrainState D G, (dPhase M real_images t).2 =
      reduce_mean (M.discriminator t.dParams
          (M.generator t.gParams (M.latentDraw t.rng))) -
        reduce_mean (M.discriminator t.dParams real_images) +
        gradient_penalty (M.normalDraw (t.rng + 1)) (M.discGradAt t.dParams)
          real_images (M.generator t.gParams (M.latentDraw t.rng)) *
          M.gpWeight) ∧
    (∀ t : TrainState D G, (dPhase M real_images t).1.rng = t.rng + 2) ∧
    (∀ t : TrainState D G, (gPhase M t).2 =
      -reduce_mean (M.discriminator t.dParams
        (M.generator t.gParams (M.latentDraw t.rng)))) ∧
    (∀ t : TrainState D G, (gPhase M t).1.rng = t.rng + 1) := by
  refine ⟨rfl, ?_, fun t => rfl, ?_, fun t => rfl⟩
  · intro t
    simp only [dPhase, gradient_penaltyS, hd, discriminator_loss]
  · intro t
    simp only [gPhase, hg, generator_loss]

/-- C9: when `train_step` receives a tuple it trains on the first
component only, ignoring every other component entirely. -/
theorem train_step_tuple_discards_rest {B H W C : ℕ} {D G L E : Type}
    (M : Model B H W C D G L) (dSteps : ℕ) (x : Img B H W C) (e : E)
    (s : TrainState D G) :
    train_step M dSteps (BatchInput.tupled x e) s =
      train_step M dSteps (BatchInput.plain (E := E) x) s := rfl

/-- C10: running `gradient_penalty` changes no network parameters (it
only advances the random-draw counter), and a whole `train_step` changes
parameters only through the two optimizer `apply_gradients` oracles:
with identity oracles the parameters are untouched. -/
theorem gradient_penalty_frame {B H W C : ℕ} {D G L E : Type}
    (M : Model B H W C D G L) (s : TrainState D G)
    (real_images fake_images : Img B H W C) :
    (gradient_penaltyS M s real_images fake_images).2.dParams = s.dParams ∧
    (gradient_penaltyS M s real_images fake_images).2.gParams = s.gParams ∧
    (∀ (dSteps : ℕ) (inp : BatchInput (Img B H W C) E) (t : TrainState D G),
      (∀ d l, M.dApply d l = d) → (∀ g l, M.gApply g l = g) →
      (train_step M dSteps inp t).1.dParams = t.dParams ∧
      (train_step M dSteps inp t).1.gParams = t.gParams) := by
  refine ⟨rfl, rfl, ?_⟩
  intro dSteps inp t hda hga
  have hloop := dLoop_params_id M (firstComponent inp) hda dSteps t
  constructor
  · exact hloop.1
  · calc (train_step M dSteps inp t).1.gParams
        = M.gApply (dLoop M (firstComponent inp) dSteps t).1.gParams _ := rfl
      _ = (dLoop M (firstComponent inp) dSteps t).1.gParams := hga _ _
      _ = t.gParams := hloop.2

/-- A concrete, fully trivial WGAN model over `Unit` parameters with the
notebook's configured loss functions and identity optimizer oracles. -/
noncomputable def witModel : Model 1 1 1 1 Unit Unit Unit where
  latentDraw := fun _ => ()
  normalDraw := fun _ _ => 0
  generator := fun _ _ => witZeroImg
  discriminator := fun _ _ _ => 0
  discGradAt := fun _ img => img
  dApply := fun d _ => d
  gApply := fun g _ => g
  dLossFn := discriminator_loss
  gLossFn := generator_loss
  gpWeight := 10

/-- A concrete initial training state. -/
def witState : TrainState Unit Unit := ⟨(), (), 0⟩

/-- Witness for C4 at the trivial concrete model. -/
theorem train_step_schedule_witness :
    train_step witModel 3 (BatchInput.plain (E := Unit) witZeroImg) witState =
      (let p1 := dPhase witModel witZeroImg witState
       let p2 := dPhase witModel witZeroImg p1.1
       let p3 := dPhase witModel witZeroImg p2.1
       let pg := gPhase witModel p3.1
       (pg.1, some p3.2, pg.2,
        [Phase.dis, Phase.dis, Phase.dis, Phase.gen])) ∧
    (∀ t : TrainState Unit Unit, (dPhase witModel witZeroImg t).2 =
      reduce_mean (witModel.discriminator t.dParams
          (witModel.generator t.gParams (witModel.latentDraw t.rng))) -
        reduce_mean (witModel.discriminator t.dParams witZeroImg) +
        gradient_penalty (witModel.normalDraw (t.rng + 1))
          (witModel.discGradAt t.dParams)
          witZeroImg (witModel.generator t.gParams (witModel.latentDraw t.rng)) *
          witModel.gpWeight) ∧
    (∀ t : TrainState Unit Unit,
      (dPhase witModel witZeroImg t).1.rng = t.rng + 2) ∧
    (∀ t : TrainState Unit Unit, (gPhase witModel t).2 =
      -reduce_mean (witModel.discriminator t.dParams
        (witModel.generator t.gParams (witModel.latentDraw t.rng)))) ∧
    (∀ t : TrainState Unit Unit, (gPhase witModel t).1.rng = t.rng + 1) :=
  train_step_schedule witModel witZeroImg witState rfl rfl

/-- Witness for C10 at the trivial concrete model, whose optimizer
oracles are identities: three discriminator steps plus the generator
step leave the `Unit` parameters untouched. -/
theorem gradient_penalty_frame_witness :
    (gradient_penaltyS witModel witState witZeroImg witZeroImg).2.dParams =
      witState.dParams ∧
    (train_step witModel 3 (BatchInput.plain (E := Unit) witZeroImg)
        witState).1.dParams = witState.dParams ∧
    (train_step witModel 3 (BatchInput.plain (E := Unit) witZeroImg)
        witState).1.gParams = witState.gParams :=
  ⟨(gradient_penalty_frame (E := Unit) witModel witState
      witZeroImg witZeroImg).1,
   ((gradient_penalty_frame witModel witState witZeroImg witZeroImg).2.2
      3 (BatchInput.plain witZeroImg) witState
      (fun _ _ => rfl) (fun _ _ => rfl)).1,
   ((gradient_penalty_frame witModel witState witZeroImg witZeroImg).2.2
      3 (BatchInput.plain witZeroImg) witState
      (fun _ _ => rfl) (fun _ _ => rfl)).2⟩

end WGAN
